import Mathlib

/-!
Verification development for the `game_sendupdates` RPC core of the Xaya
daemon (src/rpc/game.cpp, src/rpc/game.h).

The development shallowly embeds:

* the chain walk `GetDetachSequence` (game.cpp, lines 190-207): a loop that
  follows `pprev` pointers from `from` until reaching `ancestor`, asserting
  non-null pointers and throwing `RPC_DATABASE_ERROR` when a visited block
  lacks `BLOCK_HAVE_DATA`;
* the request pipeline `game_sendupdates` (game.cpp, lines 210-307):
  argument lookup, data checks on the two endpoints, common-ancestor
  computation, the two walks, reversal of the attach walk, the ZMQ notifier
  check and the final enqueue;
* the `SendUpdatesWorker` (game.cpp, lines 44-183): a FIFO queue with an
  `interrupted` flag, an `enqueue` that silently drops work once interrupted,
  an `interrupt` that sets the flag, and a run loop that pops the queue front,
  dispatches detach notifications before attach notifications via
  `SendUpdatesOneBlock`, and exits only when the queue is empty and the flag
  is set.  The run loop is modelled as a small-step system driven by a list
  of events (producer enqueues, the interrupt, consumer pops, consumer exit),
  each event corresponding to one critical section of the C++ code.

Block references (`CBlockIndex*`) are modelled as natural numbers together
with a `ChainIndex` giving each block a parent link, a data-availability
flag and a lookup (`LookupBlockIndex`) flag.  The C++ walk loop has no
termination guarantee on an arbitrary pointer structure, so it is embedded
with an explicit fuel parameter; `WalkResult.fuelOut` is the embedding
artifact for a walk that has not finished within the given fuel and never
occurs in any claim instance.
-/

namespace Xaya

/-- The read-only view of the node's block index used by the walk:
`parent b` is the `pprev` pointer (none at genesis), `haveData b` is the
`nStatus & BLOCK_HAVE_DATA` flag, `known b` says whether
`LookupBlockIndex` finds the block. -/
structure ChainIndex where
  known : Nat → Bool
  parent : Nat → Option Nat
  haveData : Nat → Bool

/-- Outcome of the embedded `GetDetachSequence` loop: the collected block
list, the `RPC_DATABASE_ERROR` throw for a block without data, the
`assert (pindex != nullptr)` failure, or fuel exhaustion (embedding
artifact). -/
inductive WalkResult where
  | ok : List Nat → WalkResult
  | dataUnavailable : WalkResult
  | assertFail : WalkResult
  | fuelOut : WalkResult
deriving DecidableEq

/-- Embedding of `GetDetachSequence` (game.cpp, lines 190-207).  The C++
loop runs `pindex` from `from` while `pindex != ancestor`; each iteration
asserts `pindex != nullptr`, throws when the block has no data, pushes the
block and moves to `pindex->pprev`.  `cur` is the current pointer
(`none` = null) and `anc` the (non-null) ancestor pointer; `fuel` bounds
the number of iterations. -/
def getDetachSequence (ci : ChainIndex) (anc : Nat) : Nat → Option Nat → WalkResult
  | 0, cur =>
      if cur = some anc then WalkResult.ok []
      else
        match cur with
        | none => WalkResult.assertFail
        | some b =>
            if ci.haveData b then WalkResult.fuelOut
            else WalkResult.dataUnavailable
  | f + 1, cur =>
      if cur = some anc then WalkResult.ok []
      else
        match cur with
        | none => WalkResult.assertFail
        | some b =>
            if ci.haveData b then
              match getDetachSequence ci anc f (ci.parent b) with
              | WalkResult.ok rest => WalkResult.ok (b :: rest)
              | e => e
            else WalkResult.dataUnavailable

/-- The pure parent-link walk in the spec's words: starting at `b`,
repeatedly move to the parent, collecting each visited block, until the
ancestor is reached (exclusive).  `n` bounds the number of parent steps;
the result is `none` when the ancestor is not reached within `n` steps or
a missing parent is hit first, so `walkToAncestor ci anc n b = some L`
expresses that `anc` is reachable from `b` and `L` is the visit list. -/
def walkToAncestor (ci : ChainIndex) (anc : Nat) : Nat → Nat → Option (List Nat)
  | 0, b => if b = anc then some [] else none
  | n + 1, b =>
      if b = anc then some []
      else
        match ci.parent b with
        | none => none
        | some p => Option.map (fun l => b :: l) (walkToAncestor ci anc n p)

/-- Decides that a list is one contiguous parent-linked chain segment
ending just above `anc`: each element's parent is the next element, and
the last element's parent is `anc`. -/
def linksToAncestor (ci : ChainIndex) (anc : Nat) : List Nat → Bool
  | [] => true
  | [b] => ci.parent b == some anc
  | b :: c :: rest => (ci.parent b == some c) && linksToAncestor ci anc (c :: rest)

/-- The blocks strictly between `tip` and `anc` along parent links, in
child-before-parent order: the parent walk from `tip` to `anc` with both
endpoints removed. -/
def strictlyBetween (ci : ChainIndex) (fuel tip anc : Nat) : List Nat :=
  ((walkToAncestor ci anc fuel tip).getD []).filter (fun b => b ≠ tip && b ≠ anc)

/-- The parent chain of a block: the block followed by its ancestors, up
to `fuel` parent steps or the genesis block. -/
def chainList (ci : ChainIndex) : Nat → Nat → List Nat
  | 0, b => [b]
  | f + 1, b =>
      b :: (match ci.parent b with
            | none => []
            | some p => chainList ci f p)

/-- Modelled from the spec: `LastCommonAncestor` belongs to the
surrounding node (chain.cpp), not to this repository's two source files.
Per spec §3 the common ancestor of two block references is the deepest
block reachable by parent links from both, i.e. the first block on the
parent chain of `a` that also lies on the parent chain of `b`. -/
def lastCommonAncestor (ci : ChainIndex) (fuel : Nat) (a b : Nat) : Option Nat :=
  (chainList ci fuel a).find? (fun x => (chainList ci fuel b).contains x)

/-- Embedding of `SendUpdatesWorker::Work` (game.h, lines 29-46): the
request token, the two ordered block lists and the tracked-games set
captured by the request handler. -/
structure Work where
  reqtoken : String
  detach : List Nat
  attach : List Nat
  trackedGames : List String
deriving DecidableEq

/-- The data computed by a successful `game_sendupdates` call: the fields
of the enqueued `Work` item together with the reported common ancestor
(the `toblock`, `reqtoken` and step counts of the JSON result are all
recoverable from these fields). -/
structure WorkResult where
  reqtoken : String
  ancestor : Nat
  detach : List Nat
  attach : List Nat
  trackedGames : List String
deriving DecidableEq

/-- The `Work` item enqueued for a successful request. -/
def toWork (r : WorkResult) : Work :=
  ⟨r.reqtoken, r.detach, r.attach, r.trackedGames⟩

/-- Errors thrown by the `game_sendupdates` request path:
`RPC_INVALID_ADDRESS_OR_KEY` for an unresolved block, `RPC_DATABASE_ERROR`
for missing block data, `RPC_MISC_ERROR` when the ZMQ notifier is not
configured, the two `assert` failures, and the fuel artifact. -/
inductive RpcError where
  | blockNotFound : RpcError
  | dataUnavailable : RpcError
  | transportUnavailable : RpcError
  | ancestorAssertFailed : RpcError
  | walkAssertFailed : RpcError
  | fuelExhausted : RpcError
deriving DecidableEq

/-- The request-time environment of `game_sendupdates`: the block index,
whether the ZMQ game-blocks notifier is configured
(`GetGameBlocksNotifier` succeeds), the generated request token
(random in the C++ code), and the notifier's tracked-games registry
(readable via the `trackedgames` RPC; `game_sendupdates` itself never
reads it). -/
structure ReqEnv where
  ci : ChainIndex
  zmq : Bool
  reqtoken : String
  registry : List String

/-- Embedding of `game_sendupdates` (game.cpp, lines 210-307) for an
explicitly given target block: look up both endpoints, check their data
flags, compute the common ancestor (asserted non-null), run the two
walks, reverse the attach walk, check the notifier, and return the data
of the work item that is then enqueued.  The checks appear in the order
the C++ code performs them. -/
def gameSendUpdates (env : ReqEnv) (fuel : Nat) (gameid : String)
    (fromB toB : Nat) : Except RpcError WorkResult :=
  if env.ci.known fromB = true then
    if env.ci.known toB = true then
      if env.ci.haveData fromB = true then
        if env.ci.haveData toB = true then
          match lastCommonAncestor env.ci fuel fromB toB with
          | some anc =>
            match getDetachSequence env.ci anc fuel (some fromB) with
            | WalkResult.ok d =>
              match getDetachSequence env.ci anc fuel (some toB) with
              | WalkResult.ok a =>
                if env.zmq = true then
                  Except.ok ⟨env.reqtoken, anc, d, a.reverse, [gameid]⟩
                else Except.error RpcError.transportUnavailable
              | WalkResult.dataUnavailable => Except.error RpcError.dataUnavailable
              | WalkResult.assertFail => Except.error RpcError.walkAssertFailed
              | WalkResult.fuelOut => Except.error RpcError.fuelExhausted
            | WalkResult.dataUnavailable => Except.error RpcError.dataUnavailable
            | WalkResult.assertFail => Except.error RpcError.walkAssertFailed
            | WalkResult.fuelOut => Except.error RpcError.fuelExhausted
          | none => Except.error RpcError.ancestorAssertFailed
        else Except.error RpcError.dataUnavailable
      else Except.error RpcError.dataUnavailable
    else Except.error RpcError.blockNotFound
  else Except.error RpcError.blockNotFound

/-- Direction tag of a notification: `ZMQGameBlocksNotifier::PREFIX_DETACH`
or `PREFIX_ATTACH`. -/
inductive Direction where
  | detach : Direction
  | attach : Direction
deriving DecidableEq

/-- One outbound game-block notification as handed to
`SendBlockNotifications`: the tracked games of the work item, the
direction prefix, the request token, the block payload read from disk and
the block itself. -/
structure Notification where
  games : List String
  dir : Direction
  reqtoken : String
  payload : String
  block : Nat
deriving DecidableEq

/-- The dispatch-time environment of the worker thread:
`ReadBlockFromDisk`, which may fail per block (e.g. the block was pruned
between validation and send). -/
structure DispatchEnv where
  readBlock : Nat → Option String

/-- Embedding of `SendUpdatesOneBlock` (game.cpp, lines 89-107): read the
block from disk; on failure log and skip (no notification); otherwise
hand the notification to the notifier.  The notifier lookup is modelled
as available at dispatch time. -/
def sendUpdatesOneBlock (env : DispatchEnv) (games : List String)
    (dir : Direction) (tok : String) (b : Nat) : Option Notification :=
  match env.readBlock b with
  | none => none
  | some pl => some ⟨games, dir, tok, pl, b⟩

/-- The notifications emitted while processing one popped work item
(game.cpp, lines 144-151): every detach block in stored order, then every
attach block in stored order, skipping blocks whose disk read fails. -/
def processWork (env : DispatchEnv) (w : Work) : List Notification :=
  w.detach.filterMap (sendUpdatesOneBlock env w.trackedGames Direction.detach w.reqtoken)
    ++ w.attach.filterMap (sendUpdatesOneBlock env w.trackedGames Direction.attach w.reqtoken)

/-- State of the `SendUpdatesWorker` system: the shared queue and
`interrupted` flag (the two mutex-protected fields of the class), whether
the run loop has exited, and the observation logs of processed items and
emitted notifications. -/
structure SysState where
  queue : List Work
  interrupted : Bool
  terminated : Bool
  processed : List Work
  sent : List Notification
deriving DecidableEq

/-- Embedding of `SendUpdatesWorker::enqueue` (game.cpp, lines 166-181):
under the mutex, an interrupted worker silently drops the item and does
not notify; otherwise the item is pushed at the back and the condition
variable is notified.  The boolean records whether `cvWork.notify_all`
was called. -/
def enqueueOp (st : SysState) (w : Work) : SysState × Bool :=
  if st.interrupted = true then (st, false)
  else (⟨st.queue ++ [w], st.interrupted, st.terminated, st.processed, st.sent⟩, true)

/-- Embedding of `SendUpdatesWorker::interrupt` (game.cpp, lines 158-164):
under the mutex, set the flag and notify. -/
def interruptOp (st : SysState) : SysState :=
  ⟨st.queue, true, st.terminated, st.processed, st.sent⟩

/-- Events of the worker system.  Each event is one critical section:
a producer's `enqueue` call, the `interrupt` call, one run-loop iteration
that pops the queue front and dispatches it (`pop`), and the run-loop
exit taken when the queue is empty and the flag is set (`exitLoop`).
An iteration that finds the queue empty and waits changes no state and
needs no event. -/
inductive Event where
  | enq : Work → Event
  | intr : Event
  | pop : Event
  | exitLoop : Event
deriving DecidableEq

/-- One step of the worker system (game.cpp, lines 111-181).  `pop` with
an empty queue and `exitLoop` with its guard unsatisfied are stutters:
the run loop takes those transitions only when their guards hold. -/
def step (env : DispatchEnv) (st : SysState) : Event → SysState
  | Event.enq w => (enqueueOp st w).1
  | Event.intr => interruptOp st
  | Event.pop =>
      match st.queue with
      | [] => st
      | w :: rest =>
          ⟨rest, st.interrupted, st.terminated, st.processed ++ [w],
           st.sent ++ processWork env w⟩
  | Event.exitLoop =>
      if st.queue = [] ∧ st.interrupted = true then
        ⟨st.queue, st.interrupted, true, st.processed, st.sent⟩
      else st

/-- Run the worker system over a list of events. -/
def runEvents (env : DispatchEnv) (st : SysState) : List Event → SysState
  | [] => st
  | e :: es => runEvents env (step env st e) es

/-- The worker state right after construction (game.cpp, lines 69-76):
empty queue, `interrupted = false`, thread running. -/
def initState : SysState :=
  ⟨[], false, false, [], []⟩

/-- The items accepted by `enqueue` along an event list, given the current
value of the `interrupted` flag: an enqueue is accepted exactly when the
flag is not yet set. -/
def acceptedFrom (intr : Bool) : List Event → List Work
  | [] => []
  | Event.enq w :: es => if intr then acceptedFrom intr es else w :: acceptedFrom intr es
  | Event.intr :: es => acceptedFrom true es
  | Event.pop :: es => acceptedFrom intr es
  | Event.exitLoop :: es => acceptedFrom intr es

/-- A `game_sendupdates` call together with its effect on the worker: the
C++ function throws before reaching the enqueue on any failure, so only a
successful request enqueues its work item. -/
def gameSendUpdatesCall (env : ReqEnv) (fuel : Nat) (gameid : String)
    (fromB toB : Nat) (st : SysState) :
    Except RpcError WorkResult × SysState :=
  match gameSendUpdates env fuel gameid fromB toB with
  | Except.error e => (Except.error e, st)
  | Except.ok r => (Except.ok r, (enqueueOp st (toWork r)).1)

/-- Invariant of the worker system: once the run loop has exited, the
queue is empty and the flag is set. -/
def WInv (st : SysState) : Prop :=
  st.terminated = true → (st.queue = [] ∧ st.interrupted = true)

/-- A concrete block index: blocks `1` and `2` are siblings with parent
`0`, everything has data. -/
def ciEx : ChainIndex :=
  ⟨fun _ => true,
   fun b => if b = 1 then some 0 else if b = 2 then some 0 else none,
   fun _ => true⟩

/-- A concrete block index with chains `1 → 0` and `3 → 2 → 0` in which
block `2` lacks its data flag. -/
def ciBad : ChainIndex :=
  ⟨fun _ => true,
   fun b =>
     if b = 1 then some 0
     else if b = 2 then some 0
     else if b = 3 then some 2 else none,
   fun b => !(b == 2)⟩

/-- A concrete request environment over `ciEx`; the registry content
differs from every game id used in the examples. -/
def envEx : ReqEnv :=
  ⟨ciEx, true, "tok", ["a", "b"]⟩

/-- A concrete request environment over `ciBad`. -/
def envBad : ReqEnv :=
  ⟨ciBad, true, "tok", []⟩

/-- A concrete dispatch environment in which reading block `2` fails. -/
def envDEx : DispatchEnv :=
  ⟨fun b => if b = 2 then none else some "blk"⟩

/-- A concrete work item. -/
def wEx : Work :=
  ⟨"tok", [1], [2], ["g"]⟩

/-- A concrete work item whose detach list contains the unreadable
block `2`. -/
def wSkip : Work :=
  ⟨"tok", [1, 2], [3], ["g"]⟩

/-- The work data computed by `gameSendUpdates envEx 5 "g" 1 2`. -/
def rEx : WorkResult :=
  ⟨"tok", 0, [1], [2], ["g"]⟩

theorem getDetach_none (ci : ChainIndex) (anc : Nat) (f : Nat) :
    getDetachSequence ci anc f none = WalkResult.assertFail := by
  cases f <;> simp [getDetachSequence]

theorem getDetach_anc (ci : ChainIndex) (anc : Nat) (f : Nat) :
    getDetachSequence ci anc f (some anc) = WalkResult.ok [] := by
  cases f <;> simp [getDetachSequence]

theorem walk_ok_getDetach (ci : ChainIndex) (anc : Nat) :
    ∀ n fuel b L, walkToAncestor ci anc n b = some L → n ≤ fuel →
      (∀ x ∈ L, ci.haveData x = true) →
      getDetachSequence ci anc fuel (some b) = WalkResult.ok L := by
  intro n
  induction n with
  | zero =>
      intro fuel b L hw _ _
      by_cases hb : b = anc
      · subst hb
        simp [walkToAncestor] at hw
        subst hw
        exact getDetach_anc ci _ fuel
      · simp [walkToAncestor, hb] at hw
  | succ n ih =>
      intro fuel b L hw hf hd
      by_cases hb : b = anc
      · subst hb
        simp [walkToAncestor] at hw
        subst hw
        exact getDetach_anc ci _ fuel
      · simp only [walkToAncestor, if_neg hb] at hw
        cases hp : ci.parent b with
        | none => rw [hp] at hw; exact absurd hw (by simp)
        | some p =>
            rw [hp] at hw
            rcases Option.map_eq_some'.mp hw with ⟨l, hl, hL⟩
            subst hL
            have hd' : ci.haveData b = true := hd b (List.mem_cons_self _ _)
            have hdl : ∀ x ∈ l, ci.haveData x = true :=
              fun x hx => hd x (List.mem_cons_of_mem _ hx)
            cases fuel with
            | zero => omega
            | succ f =>
                have hrec := ih f p l hl (Nat.succ_le_succ_iff.mp hf) hdl
                simp [getDetachSequence, hb, hp, hd', hrec]

theorem walk_bad_getDetach (ci : ChainIndex) (anc : Nat) :
    ∀ n fuel b L, walkToAncestor ci anc n b = some L → n ≤ fuel →
      (∃ x ∈ L, ci.haveData x = false) →
      getDetachSequence ci anc fuel (some b) = WalkResult.dataUnavailable := by
  intro n
  induction n with
  | zero =>
      intro fuel b L hw _ hbad
      by_cases hb : b = anc
      · subst hb
        simp [walkToAncestor] at hw
        subst hw
        simp at hbad
      · simp [walkToAncestor, hb] at hw
  | succ n ih =>
      intro fuel b L hw hf hbad
      by_cases hb : b = anc
      · subst hb
        simp [walkToAncestor] at hw
        subst hw
        simp at hbad
      · simp only [walkToAncestor, if_neg hb] at hw
        cases hp : ci.parent b with
        | none => rw [hp] at hw; exact absurd hw (by simp)
        | some p =>
            rw [hp] at hw
            rcases Option.map_eq_some'.mp hw with ⟨l, hl, hL⟩
            subst hL
            cases hdb : ci.haveData b with
            | false => cases fuel <;> simp [getDetachSequence, hb, hdb]
            | true =>
                have hbadl : ∃ x ∈ l, ci.haveData x = false := by
                  rcases hbad with ⟨x, hx, hxf⟩
                  rcases List.mem_cons.mp hx with rfl | hxl
                  · rw [hdb] at hxf; cases hxf
                  · exact ⟨x, hxl, hxf⟩
                cases fuel with
                | zero => omega
                | succ f =>
                    have hrec := ih f p l hl (Nat.succ_le_succ_iff.mp hf) hbadl
                    simp [getDetachSequence, hb, hp, hdb, hrec]

theorem getDetach_ok_structure (ci : ChainIndex) (anc : Nat) :
    ∀ fuel b L, getDetachSequence ci anc fuel (some b) = WalkResult.ok L →
      b ≠ anc →
      L.head? = some b ∧ linksToAncestor ci anc L = true ∧ anc ∉ L := by
  intro fuel
  induction fuel with
  | zero =>
      intro b L h hb
      cases hdb : ci.haveData b <;> simp [getDetachSequence, hb, hdb] at h
  | succ f ih =>
      intro b L h hb
      cases hdb : ci.haveData b with
      | false => simp [getDetachSequence, hb, hdb] at h
      | true =>
          simp only [getDetachSequence, Option.some.injEq, if_neg hb, hdb, if_true] at h
          cases hrec : getDetachSequence ci anc f (ci.parent b) with
          | ok rest =>
              rw [hrec] at h
              simp only [WalkResult.ok.injEq] at h
              subst h
              cases hp : ci.parent b with
              | none =>
                  rw [hp, getDetach_none] at hrec
                  simp at hrec
              | some p =>
                  rw [hp] at hrec
                  by_cases hpa : p = anc
                  · subst hpa
                    rw [getDetach_anc] at hrec
                    simp only [WalkResult.ok.injEq] at hrec
                    subst hrec
                    refine ⟨rfl, ?_, ?_⟩
                    · simp [linksToAncestor, hp]
                    · simp [Ne.symm hb]
                  · obtain ⟨hh, hl, hm⟩ := ih p rest hrec hpa
                    cases rest with
                    | nil => simp at hh
                    | cons c rest' =>
                        simp only [List.head?_cons, Option.some.injEq] at hh
                        subst hh
                        refine ⟨rfl, ?_, ?_⟩
                        · simp [linksToAncestor, hp, hl]
                        · simp only [List.mem_cons, not_or]
                          exact ⟨Ne.symm hb, by simpa [List.mem_cons] using hm⟩
          | dataUnavailable => rw [hrec] at h; exact absurd h (by simp)
          | assertFail => rw [hrec] at h; exact absurd h (by simp)
          | fuelOut => rw [hrec] at h; exact absurd h (by simp)

theorem lastCommonAncestor_self (ci : ChainIndex) (fuel : Nat) (a : Nat) :
    lastCommonAncestor ci fuel a a = some a := by
  obtain ⟨t, ht⟩ : ∃ t, chainList ci fuel a = a :: t := by
    cases fuel <;> exact ⟨_, rfl⟩
  unfold lastCommonAncestor
  rw [ht]
  exact List.find?_cons_of_pos t (by simp)

theorem runEvents_processed_queue (env : DispatchEnv) :
    ∀ (es : List Event) (st : SysState),
      (runEvents env st es).processed ++ (runEvents env st es).queue
        = st.processed ++ st.queue ++ acceptedFrom st.interrupted es := by
  intro es
  induction es with
  | nil => intro st; simp [runEvents, acceptedFrom]
  | cons e es ih =>
      intro st
      cases e with
      | enq w =>
          cases hi : st.interrupted with
          | false =>
              simp only [runEvents, step, enqueueOp, hi, acceptedFrom, if_false,
                Bool.false_eq_true, ite_false]
              rw [ih]
              simp [List.append_assoc]
          | true =>
              simp only [runEvents, step, enqueueOp, hi, acceptedFrom, ite_true]
              rw [ih st, hi]
      | intr =>
          simp only [runEvents, step, interruptOp, acceptedFrom]
          exact ih _
      | pop =>
          cases hq : st.queue with
          | nil =>
              simp only [runEvents, step, hq, acceptedFrom]
              rw [ih]
              simp [hq]
          | cons w rest =>
              simp only [runEvents, step, hq, acceptedFrom]
              rw [ih]
              simp [hq, List.append_assoc]
      | exitLoop =>
          by_cases hc : st.queue = [] ∧ st.interrupted = true
          · simp only [runEvents, step, if_pos hc, acceptedFrom]
            rw [ih]
          · simp only [runEvents, step, if_neg hc, acceptedFrom]
            exact ih st

theorem step_winv (env : DispatchEnv) (st : SysState) (e : Event)
    (h : WInv st) : WInv (step env st e) := by
  cases e with
  | enq w =>
      intro ht
      cases hi : st.interrupted with
      | true => simpa [step, enqueueOp, hi] using h (by simpa [step, enqueueOp, hi] using ht)
      | false =>
          have := h (by simpa [step, enqueueOp, hi] using ht)
          rw [hi] at this
          exact absurd this.2 (by simp)
  | intr =>
      intro ht
      have := h (by simpa [step, interruptOp] using ht)
      simp [step, interruptOp, this.1]
  | pop =>
      intro ht
      cases hq : st.queue with
      | nil => simpa [step, hq] using h (by simpa [step, hq] using ht)
      | cons w rest =>
          have := h (by simpa [step, hq] using ht)
          rw [hq] at this
          exact absurd this.1 (by simp)
  | exitLoop =>
      intro ht
      by_cases hc : st.queue = [] ∧ st.interrupted = true
      · simp [step, if_pos hc, hc.1, hc.2]
      · have ht' : st.terminated = true := by simpa [step, if_neg hc] using ht
        simpa [step, if_neg hc] using h ht'

theorem runEvents_winv (env : DispatchEnv) :
    ∀ (es : List Event) (st : SysState), WInv st → WInv (runEvents env st es) := by
  intro es
  induction es with
  | nil => intro st h; exact h
  | cons e es ih => intro st h; exact ih _ (step_winv env st e h)

theorem runEvents_sent (env : DispatchEnv) :
    ∀ (es : List Event) (st : SysState),
      st.sent = st.processed.flatMap (processWork env) →
      (runEvents env st es).sent
        = (runEvents env st es).processed.flatMap (processWork env) := by
  intro es
  induction es with
  | nil => intro st h; exact h
  | cons e es ih =>
      intro st h
      refine ih _ ?_
      cases e with
      | enq w =>
          cases hi : st.interrupted <;> simp [step, enqueueOp, hi, h]
      | intr => simpa [step, interruptOp] using h
      | pop =>
          cases hq : st.queue with
          | nil => simpa [step, hq] using h
          | cons w rest => simp [step, hq, h]
      | exitLoop =>
          by_cases hc : st.queue = [] ∧ st.interrupted = true
          · simpa [step, if_pos hc] using h
          · simpa [step, if_neg hc] using h

theorem acceptedFrom_true (es : List Event) : acceptedFrom true es = [] := by
  induction es with
  | nil => rfl
  | cons e es ih => cases e <;> simp [acceptedFrom, ih]

theorem acceptedFrom_enqs (ws : List Work) (rest : List Event) :
    acceptedFrom false (ws.map Event.enq ++ Event.intr :: rest) = ws := by
  induction ws with
  | nil => simp [acceptedFrom, acceptedFrom_true]
  | cons w ws ih => simp [acceptedFrom, ih]

theorem winv_init : WInv initState := by
  intro h
  simp [initState] at h

theorem filterMap_send_dirblock (env : DispatchEnv) (games : List String)
    (dir : Direction) (tok : String) (l : List Nat) :
    (l.filterMap (sendUpdatesOneBlock env games dir tok)).map (fun n => (n.dir, n.block))
      = (l.filter (fun b => (env.readBlock b).isSome)).map (fun b => (dir, b)) := by
  induction l with
  | nil => rfl
  | cons b t ih =>
      cases h : env.readBlock b <;>
        simp [sendUpdatesOneBlock, h, ih, List.filter_cons, List.filterMap_cons]

theorem mem_filterMap_send (env : DispatchEnv) (games : List String)
    (dir : Direction) (tok : String) (l : List Nat) (n : Notification)
    (h : n ∈ l.filterMap (sendUpdatesOneBlock env games dir tok)) :
    n.games = games ∧ (env.readBlock n.block).isSome = true := by
  rcases List.mem_filterMap.mp h with ⟨b, _, hb⟩
  cases hr : env.readBlock b with
  | none =>
      simp only [sendUpdatesOneBlock, hr] at hb
      exact absurd hb (by simp)
  | some pl =>
      simp only [sendUpdatesOneBlock, hr] at hb
      cases hb
      exact ⟨rfl, by simp [hr]⟩

theorem processWork_dirblock (env : DispatchEnv) (w : Work) :
    (processWork env w).map (fun n => (n.dir, n.block))
      = (w.detach.filter (fun b => (env.readBlock b).isSome)).map
          (fun b => (Direction.detach, b))
        ++ (w.attach.filter (fun b => (env.readBlock b).isSome)).map
          (fun b => (Direction.attach, b)) := by
  unfold processWork
  rw [List.map_append, filterMap_send_dirblock, filterMap_send_dirblock]

theorem mem_processWork (env : DispatchEnv) (w : Work) (n : Notification)
    (h : n ∈ processWork env w) :
    n.games = w.trackedGames ∧ (env.readBlock n.block).isSome = true := by
  rcases List.mem_append.mp h with h' | h'
  · exact mem_filterMap_send env _ _ _ _ n h'
  · exact mem_filterMap_send env _ _ _ _ n h'

theorem gameSendUpdates_ok_inv (env : ReqEnv) (fuel : Nat) (g : String)
    (fromB toB : Nat) (r : WorkResult)
    (h : gameSendUpdates env fuel g fromB toB = Except.ok r) :
    lastCommonAncestor env.ci fuel fromB toB = some r.ancestor
    ∧ getDetachSequence env.ci r.ancestor fuel (some fromB) = WalkResult.ok r.detach
    ∧ (∃ a2, getDetachSequence env.ci r.ancestor fuel (some toB) = WalkResult.ok a2
        ∧ r.attach = a2.reverse)
    ∧ r.trackedGames = [g] ∧ r.reqtoken = env.reqtoken := by
  unfold gameSendUpdates at h
  split at h
  case isFalse => exact absurd h (by simp)
  split at h
  case isFalse => exact absurd h (by simp)
  split at h
  case isFalse => exact absurd h (by simp)
  split at h
  case isFalse => exact absurd h (by simp)
  split at h
  case h_2 => exact absurd h (by simp)
  rename_i anc hanc
  split at h
  case h_2 => exact absurd h (by simp)
  case h_3 => exact absurd h (by simp)
  case h_4 => exact absurd h (by simp)
  rename_i d hd
  split at h
  case h_2 => exact absurd h (by simp)
  case h_3 => exact absurd h (by simp)
  case h_4 => exact absurd h (by simp)
  rename_i a ha
  split at h
  case isFalse => exact absurd h (by simp)
  simp only [Except.ok.injEq] at h
  subst h
  exact ⟨hanc, hd, ⟨a, ha, rfl⟩, rfl, rfl⟩

/-- C1: when the ancestor is reachable from `fromB` by parent links (the
pure walk visits `L1`) and every visited block has data,
`GetDetachSequence` returns exactly the visit list `L1` (child before
parent, `fromB` first); and `game_sendupdates` builds its attach list as
the reverse of the same walk performed from the new tip `toB`, giving
ancestor-to-new-tip order. -/
theorem detach_walk_and_attach_reverse (env : ReqEnv) (fuel n1 n2 : Nat)
    (g : String) (fromB toB anc : Nat) (L1 L2 : List Nat)
    (hk1 : env.ci.known fromB = true) (hk2 : env.ci.known toB = true)
    (hdf : env.ci.haveData fromB = true) (hdt : env.ci.haveData toB = true)
    (hanc : lastCommonAncestor env.ci fuel fromB toB = some anc)
    (hw1 : walkToAncestor env.ci anc n1 fromB = some L1)
    (hw2 : walkToAncestor env.ci anc n2 toB = some L2)
    (hd1 : ∀ x ∈ L1, env.ci.haveData x = true)
    (hd2 : ∀ x ∈ L2, env.ci.haveData x = true)
    (hf1 : n1 ≤ fuel) (hf2 : n2 ≤ fuel) (hz : env.zmq = true) :
    getDetachSequence env.ci anc fuel (some fromB) = WalkResult.ok L1
    ∧ gameSendUpdates env fuel g fromB toB
        = Except.ok ⟨env.reqtoken, anc, L1, L2.reverse, [g]⟩ := by
  have h1 := walk_ok_getDetach env.ci anc n1 fuel fromB L1 hw1 hf1 hd1
  have h2 := walk_ok_getDetach env.ci anc n2 fuel toB L2 hw2 hf2 hd2
  refine ⟨h1, ?_⟩
  unfold gameSendUpdates
  rw [hk1, hk2, hdf, hdt, hanc]
  simp [h1, h2, hz]

/-- Witness for C1 on the concrete chain `1 → 0`, `2 → 0`: the detach
walk from `1` to ancestor `0` is `[1]` and the request built for new tip
`2` carries attach list `reverse [2]`. -/
theorem detach_walk_and_attach_reverse_witness :
    getDetachSequence ciEx 0 5 (some 1) = WalkResult.ok [1]
    ∧ gameSendUpdates envEx 5 "g" 1 2
        = Except.ok ⟨"tok", 0, [1], List.reverse [2], ["g"]⟩ :=
  detach_walk_and_attach_reverse envEx 5 1 1 "g" 1 2 0 [1] [2]
    rfl rfl rfl rfl (by decide) (by decide) (by decide)
    (by decide) (by decide) (by decide) (by decide) rfl

/-- C9: a request whose old tip equals its new tip (both `X`) succeeds
with empty detach and attach lists and reports `X` itself as the common
ancestor. -/
theorem same_tip_empty_updates (env : ReqEnv) (fuel : Nat) (g : String)
    (X : Nat) (hk : env.ci.known X = true) (hd : env.ci.haveData X = true)
    (hz : env.zmq = true) :
    gameSendUpdates env fuel g X X
      = Except.ok ⟨env.reqtoken, X, [], [], [g]⟩ := by
  unfold gameSendUpdates
  rw [hk, hd, lastCommonAncestor_self]
  simp [getDetach_anc, hz]

/-- Witness for C9 at `X = 1` in the concrete environment. -/
theorem same_tip_empty_updates_witness :
    gameSendUpdates envEx 5 "g" 1 1 = Except.ok ⟨"tok", 1, [], [], ["g"]⟩ :=
  same_tip_empty_updates envEx 5 "g" 1 rfl rfl rfl

/-- C10: when `anc` is a proper ancestor of `b` (the pure walk from `b`
reaches `anc` after at least one step, i.e. `b ≠ anc`) and the walk's
blocks have data, `GetDetachSequence` returns a non-empty list whose
first element is `b`, in which each element's parent is the next element
and the last element's parent is `anc` — one contiguous parent-linked
chain segment ending at the ancestor. -/
theorem detach_chain_structure (ci : ChainIndex) (anc n fuel b : Nat)
    (L : List Nat) (hw : walkToAncestor ci anc n b = some L) (hb : b ≠ anc)
    (hf : n ≤ fuel) (hd : ∀ x ∈ L, ci.haveData x = true) :
    getDetachSequence ci anc fuel (some b) = WalkResult.ok L
    ∧ L ≠ [] ∧ L.head? = some b ∧ linksToAncestor ci anc L = true := by
  have hok := walk_ok_getDetach ci anc n fuel b L hw hf hd
  obtain ⟨hh, hl, _⟩ := getDetach_ok_structure ci anc fuel b L hok hb
  refine ⟨hok, ?_, hh, hl⟩
  intro hnil
  rw [hnil] at hh
  exact absurd hh (by simp)

/-- Witness for C10 at `b = 1`, `anc = 0` on the concrete chain. -/
theorem detach_chain_structure_witness :
    getDetachSequence ciEx 0 5 (some 1) = WalkResult.ok [1]
    ∧ ([1] : List Nat) ≠ [] ∧ ([1] : List Nat).head? = some 1
    ∧ linksToAncestor ciEx 0 [1] = true :=
  detach_chain_structure ciEx 0 1 5 1 [1] (by decide) (by decide)
    (by decide) (by decide)

/-- C4: when some block visited on the detach walk (`L1`) or the attach
walk (`L2`) lacks the data-available flag, the whole `game_sendupdates`
call fails with the `RPC_DATABASE_ERROR` ("data unavailable") error, no
partial result is returned, and the worker state — in particular the
queue — is exactly what it was before the call. -/
theorem data_unavailable_no_enqueue (env : ReqEnv) (fuel n1 n2 : Nat)
    (g : String) (fromB toB anc : Nat) (L1 L2 : List Nat) (st : SysState)
    (hk1 : env.ci.known fromB = true) (hk2 : env.ci.known toB = true)
    (hanc : lastCommonAncestor env.ci fuel fromB toB = some anc)
    (hw1 : walkToAncestor env.ci anc n1 fromB = some L1)
    (hw2 : walkToAncestor env.ci anc n2 toB = some L2)
    (hf1 : n1 ≤ fuel) (hf2 : n2 ≤ fuel)
    (hbad : ∃ x ∈ L1 ++ L2, env.ci.haveData x = false) :
    gameSendUpdatesCall env fuel g fromB toB st
      = (Except.error RpcError.dataUnavailable, st) := by
  have herr : gameSendUpdates env fuel g fromB toB
      = Except.error RpcError.dataUnavailable := by
    cases hdf : env.ci.haveData fromB with
    | false =>
        unfold gameSendUpdates
        rw [hk1, hk2, hdf]
        simp
    | true =>
        cases hdt : env.ci.haveData toB with
        | false =>
            unfold gameSendUpdates
            rw [hk1, hk2, hdf, hdt]
            simp
        | true =>
            by_cases hbad1 : ∃ x ∈ L1, env.ci.haveData x = false
            · have h1 := walk_bad_getDetach env.ci anc n1 fuel fromB L1 hw1 hf1 hbad1
              unfold gameSendUpdates
              rw [hk1, hk2, hdf, hdt, hanc]
              simp [h1]
            · have hall1 : ∀ x ∈ L1, env.ci.haveData x = true := by
                intro x hx
                cases hv : env.ci.haveData x with
                | false => exact absurd ⟨x, hx, hv⟩ hbad1
                | true => rfl
              have h1 := walk_ok_getDetach env.ci anc n1 fuel fromB L1 hw1 hf1 hall1
              have hbad2 : ∃ x ∈ L2, env.ci.haveData x = false := by
                rcases hbad with ⟨x, hx, hv⟩
                rcases List.mem_append.mp hx with hx1 | hx2
                · exact absurd ⟨x, hx1, hv⟩ hbad1
                · exact ⟨x, hx2, hv⟩
              have h2 := walk_bad_getDetach env.ci anc n2 fuel toB L2 hw2 hf2 hbad2
              unfold gameSendUpdates
              rw [hk1, hk2, hdf, hdt, hanc]
              simp [h1, h2]
  unfold gameSendUpdatesCall
  rw [herr]

/-- Witness for C4 on `ciBad` (chains `1 → 0` and `3 → 2 → 0`, block `2`
without data): the attach walk visits the data-less block `2`, the call
fails with the data error and the worker queue is untouched. -/
theorem data_unavailable_no_enqueue_witness :
    gameSendUpdatesCall envBad 5 "g" 1 3 initState
      = (Except.error RpcError.dataUnavailable, initState) :=
  data_unavailable_no_enqueue envBad 5 1 2 "g" 1 3 0 [1] [3, 2] initState
    rfl rfl (by decide) (by decide) (by decide) (by decide) (by decide)
    ⟨2, by decide, by decide⟩

/-- C6 counterexample: the claim says the detach list contains exactly
the blocks strictly between the old tip and the ancestor and the attach
list exactly those strictly between the ancestor and the new tip.  On the
concrete chain `1 → 0`, `2 → 0` with old tip `1`, new tip `2` and
ancestor `0`, both strictly-between sets are empty, yet the code returns
detach `[1]` (the old tip itself) and attach `[2]` (the new tip itself). -/
theorem strictly_between_counterexample :
    gameSendUpdates envEx 5 "g" 1 2 = Except.ok ⟨"tok", 0, [1], [2], ["g"]⟩
    ∧ strictlyBetween ciEx 5 1 0 = []
    ∧ strictlyBetween ciEx 5 2 0 = []
    ∧ ([1] : List Nat) ≠ [] ∧ ([2] : List Nat) ≠ [] :=
  ⟨rfl, rfl, rfl, by decide, by decide⟩

/-- C6 amended: the detach list never contains the ancestor and consists
of the parent-linked walk from the old tip (inclusive) down to the
ancestor (exclusive), child-before-parent; the attach list never contains
the ancestor and is the reverse of the same walk from the new tip, i.e.
the blocks from just above the ancestor up to and including the new tip,
parent-before-child. -/
theorem detach_attach_bounds (env : ReqEnv) (fuel : Nat) (g : String)
    (fromB toB : Nat) (r : WorkResult)
    (h : gameSendUpdates env fuel g fromB toB = Except.ok r) :
    r.ancestor ∉ r.detach ∧ r.ancestor ∉ r.attach
    ∧ (fromB = r.ancestor → r.detach = [])
    ∧ (fromB ≠ r.ancestor →
        r.detach.head? = some fromB
        ∧ linksToAncestor env.ci r.ancestor r.detach = true)
    ∧ (toB = r.ancestor → r.attach = [])
    ∧ (toB ≠ r.ancestor →
        r.attach.reverse.head? = some toB
        ∧ linksToAncestor env.ci r.ancestor r.attach.reverse = true) := by
  obtain ⟨-, hdet, ⟨a2, hatt, hrev⟩, -, -⟩ :=
    gameSendUpdates_ok_inv env fuel g fromB toB r h
  have hdetach : r.ancestor ∉ r.detach ∧ (fromB = r.ancestor → r.detach = [])
      ∧ (fromB ≠ r.ancestor →
          r.detach.head? = some fromB
          ∧ linksToAncestor env.ci r.ancestor r.detach = true) := by
    by_cases hfa : fromB = r.ancestor
    · subst hfa
      rw [getDetach_anc] at hdet
      have : r.detach = [] := by
        injection hdet with h'
        exact h'.symm
      rw [this]
      exact ⟨by simp, fun _ => rfl, fun hne => absurd rfl hne⟩
    · obtain ⟨hh, hl, hm⟩ := getDetach_ok_structure env.ci r.ancestor fuel fromB
        r.detach hdet hfa
      exact ⟨hm, fun he => absurd he hfa, fun _ => ⟨hh, hl⟩⟩
  have hattach : r.ancestor ∉ r.attach ∧ (toB = r.ancestor → r.attach = [])
      ∧ (toB ≠ r.ancestor →
          r.attach.reverse.head? = some toB
          ∧ linksToAncestor env.ci r.ancestor r.attach.reverse = true) := by
    have hrr : r.attach.reverse = a2 := by rw [hrev, List.reverse_reverse]
    by_cases hta : toB = r.ancestor
    · subst hta
      rw [getDetach_anc] at hatt
      have ha2 : a2 = [] := by
        injection hatt with h'
        exact h'.symm
      rw [hrev, ha2]
      exact ⟨by simp, fun _ => rfl, fun hne => absurd rfl hne⟩
    · obtain ⟨hh, hl, hm⟩ := getDetach_ok_structure env.ci r.ancestor fuel toB
        a2 hatt hta
      refine ⟨?_, fun he => absurd he hta, fun _ => ?_⟩
      · rw [hrev]
        simpa using hm
      · rw [hrr]
        exact ⟨hh, hl⟩
  exact ⟨hdetach.1, hattach.1, hdetach.2.1, hdetach.2.2, hattach.2.1, hattach.2.2⟩

/-- Witness for the amended C6 on the concrete reorg from tip `1` to tip
`2` over ancestor `0`. -/
theorem detach_attach_bounds_witness :
    rEx.ancestor ∉ rEx.detach
    ∧ (rEx.detach.head? = some 1
        ∧ linksToAncestor envEx.ci rEx.ancestor rEx.detach = true) :=
  ⟨(detach_attach_bounds envEx 5 "g" 1 2 rEx rfl).1,
   (detach_attach_bounds envEx 5 "g" 1 2 rEx rfl).2.2.2.1 (by decide)⟩

/-- C2: for any items enqueued before `interrupt` and any later events,
if the run loop has exited then the queue is empty and the interrupted
flag is set, and exactly the items queued before the interrupt have been
processed — each dequeued and dispatched — before termination:
interruption stopped acceptance of new work, not processing of the
already-queued work. -/
theorem worker_drains_before_exit (env : DispatchEnv) (ws : List Work)
    (rest : List Event)
    (hterm : (runEvents env initState
        (ws.map Event.enq ++ Event.intr :: rest)).terminated = true) :
    (runEvents env initState (ws.map Event.enq ++ Event.intr :: rest)).queue = []
    ∧ (runEvents env initState
        (ws.map Event.enq ++ Event.intr :: rest)).interrupted = true
    ∧ (runEvents env initState
        (ws.map Event.enq ++ Event.intr :: rest)).processed = ws
    ∧ (runEvents env initState (ws.map Event.enq ++ Event.intr :: rest)).sent
        = ws.flatMap (processWork env) := by
  obtain ⟨hq, hi⟩ := runEvents_winv env (ws.map Event.enq ++ Event.intr :: rest)
    initState winv_init hterm
  have hproc : (runEvents env initState
      (ws.map Event.enq ++ Event.intr :: rest)).processed = ws := by
    have hpq := runEvents_processed_queue env
      (ws.map Event.enq ++ Event.intr :: rest) initState
    rw [hq] at hpq
    simpa [initState, acceptedFrom_enqs] using hpq
  have hsent := runEvents_sent env (ws.map Event.enq ++ Event.intr :: rest)
    initState (by simp [initState])
  exact ⟨hq, hi, hproc, by rw [hsent, hproc]⟩

/-- Witness for C2: one item enqueued, then interrupt, then one pop and
the loop exit; the loop has terminated with the item processed. -/
theorem worker_drains_before_exit_witness :
    (runEvents envDEx initState
        ([wEx].map Event.enq ++ Event.intr :: [Event.pop, Event.exitLoop])).terminated = true
    ∧ (runEvents envDEx initState
        ([wEx].map Event.enq ++ Event.intr :: [Event.pop, Event.exitLoop])).processed = [wEx] :=
  ⟨rfl, (worker_drains_before_exit envDEx [wEx] [Event.pop, Event.exitLoop] rfl).2.2.1⟩

/-- C3: along any event interleaving, the processed items form a prefix
of the accepted enqueues in enqueue order (strict FIFO — the popped item
is always the queue front, no reordering, priority or deduplication), the
emitted notifications are those of the processed items in that order,
and within one item every detach notification precedes every attach
notification, each list traversed in its stored order (blocks whose disk
read fails being skipped). -/
theorem fifo_and_dispatch_order (env : DispatchEnv) (es : List Event) (w : Work) :
    (∃ t, (runEvents env initState es).processed ++ t = acceptedFrom false es)
    ∧ (runEvents env initState es).sent
        = ((runEvents env initState es).processed).flatMap (processWork env)
    ∧ (∀ (st : SysState) (w' : Work) (q : List Work), st.queue = w' :: q →
        (step env st Event.pop).processed = st.processed ++ [w'])
    ∧ (processWork env w).map (fun n => (n.dir, n.block))
        = (w.detach.filter (fun b => (env.readBlock b).isSome)).map
            (fun b => (Direction.detach, b))
          ++ (w.attach.filter (fun b => (env.readBlock b).isSome)).map
            (fun b => (Direction.attach, b)) := by
  refine ⟨⟨(runEvents env initState es).queue, ?_⟩, ?_, ?_,
    processWork_dirblock env w⟩
  · have hpq := runEvents_processed_queue env es initState
    simpa [initState] using hpq
  · exact runEvents_sent env es initState (by simp [initState])
  · intro st w' q hq
    simp [step, hq]

/-- Witness for C3 on a concrete trace and item: the pop takes the queue
front, and the dispatch of `wSkip` lists its detach block before its
attach block. -/
theorem fifo_and_dispatch_order_witness :
    (step envDEx ⟨[wEx], false, false, [], []⟩ Event.pop).processed = [] ++ [wEx]
    ∧ (processWork envDEx wSkip).map (fun n => (n.dir, n.block))
        = ([1, 2].filter (fun b => (envDEx.readBlock b).isSome)).map
            (fun b => (Direction.detach, b))
          ++ ([3].filter (fun b => (envDEx.readBlock b).isSome)).map
            (fun b => (Direction.attach, b)) :=
  ⟨(fifo_and_dispatch_order envDEx [] wSkip).2.2.1
      ⟨[wEx], false, false, [], []⟩ wEx [] rfl,
   (fifo_and_dispatch_order envDEx [] wSkip).2.2.2⟩

/-- C5: a block whose disk read fails during dispatch contributes no
notification, but every other block of the same item is still dispatched
in order, and the worker's pop step still completes the whole item —
the batch is not aborted and no error reaches any caller (the step
function is total and its outcome does not depend on read failures). -/
theorem per_block_failure_skipped (env : DispatchEnv) (w : Work) (b : Nat)
    (hb : env.readBlock b = none) :
    (∀ n ∈ processWork env w, n.block ≠ b)
    ∧ (processWork env w).map (fun n => (n.dir, n.block))
        = (w.detach.filter (fun b' => (env.readBlock b').isSome)).map
            (fun b' => (Direction.detach, b'))
          ++ (w.attach.filter (fun b' => (env.readBlock b').isSome)).map
            (fun b' => (Direction.attach, b'))
    ∧ (∀ (st : SysState) (q : List Work), st.queue = w :: q →
        step env st Event.pop
          = ⟨q, st.interrupted, st.terminated, st.processed ++ [w],
             st.sent ++ processWork env w⟩) := by
  refine ⟨?_, processWork_dirblock env w, ?_⟩
  · intro n hn hnb
    have hs := (mem_processWork env w n hn).2
    rw [hnb, hb] at hs
    simp at hs
  · intro st q hq
    simp [step, hq]

/-- Witness for C5: with block `2` unreadable, dispatching `wSkip`
notifies for blocks `1` and `3` only, never for `2`. -/
theorem per_block_failure_skipped_witness :
    envDEx.readBlock 2 = none
    ∧ (processWork envDEx wSkip).map (fun n => (n.dir, n.block))
        = ([1, 2].filter (fun b' => (envDEx.readBlock b').isSome)).map
            (fun b' => (Direction.detach, b'))
          ++ ([3].filter (fun b' => (envDEx.readBlock b').isSome)).map
            (fun b' => (Direction.attach, b')) :=
  ⟨rfl, (per_block_failure_skipped envDEx wSkip 2 rfl).2.1⟩

/-- C7: an `enqueue` on an interrupted worker leaves the whole state —
in particular the queue — unchanged, returns without error (the
operation is total) and performs no consumer wakeup; on a
non-interrupted worker the item is pushed at the back of the queue and
the consumer is notified. -/
theorem enqueue_interrupted_drops (st : SysState) (w : Work) :
    (st.interrupted = true → enqueueOp st w = (st, false))
    ∧ (st.interrupted = false →
        enqueueOp st w
          = (⟨st.queue ++ [w], st.interrupted, st.terminated,
              st.processed, st.sent⟩, true)) := by
  constructor
  · intro h
    simp [enqueueOp, h]
  · intro h
    simp [enqueueOp, h]

/-- Witness for C7: the drop branch at a concrete interrupted state. -/
theorem enqueue_interrupted_drops_witness :
    enqueueOp ⟨[], true, false, [], []⟩ wEx = (⟨[], true, false, [], []⟩, false) :=
  (enqueue_interrupted_drops ⟨[], true, false, [], []⟩ wEx).1 rfl

/-- C8 counterexample: the claim says the subscriber set stored in the
work item is read from the subscriber registry at request time.  In the
concrete environment the registry holds `["a", "b"]`, yet the work item
built by `game_sendupdates` carries `["g"]` — the singleton of the game
id given as the request's first parameter; the registry is never read by
this code path (game.cpp, line 245). -/
theorem trackedGames_registry_counterexample :
    gameSendUpdates envEx 5 "g" 1 2 = Except.ok ⟨"tok", 0, [1], [2], ["g"]⟩
    ∧ envEx.registry = ["a", "b"]
    ∧ (["g"] : List String) ≠ ["a", "b"] :=
  ⟨rfl, rfl, by decide⟩

/-- C8 amended: the subscriber set stored in the work item is the
singleton of the game id given in the request (the registry is not
consulted), frozen into the item at enqueue time: every notification
later dispatched for the item carries that same set, whatever the
dispatch-time state of the registry or environment. -/
theorem trackedGames_from_request (env : ReqEnv) (fuel : Nat) (g : String)
    (fromB toB : Nat) (r : WorkResult)
    (h : gameSendUpdates env fuel g fromB toB = Except.ok r) :
    r.trackedGames = [g]
    ∧ ∀ (denv : DispatchEnv) (n : Notification),
        n ∈ processWork denv (toWork r) → n.games = [g] := by
  obtain ⟨-, -, -, hg, -⟩ := gameSendUpdates_ok_inv env fuel g fromB toB r h
  refine ⟨hg, ?_⟩
  intro denv n hn
  have hng := (mem_processWork denv (toWork r) n hn).1
  rw [hng]
  simpa [toWork] using hg

/-- Witness for the amended C8 on the concrete request. -/
theorem trackedGames_from_request_witness :
    rEx.trackedGames = ["g"] :=
  (trackedGames_from_request envEx 5 "g" 1 2 rEx rfl).1

end Xaya
